import Mathlib

/-!
Shallow embedding of `src/BigVector.js` (and of its near-duplicate earlier
revision `src/unnamed/part_000`): vectors of arbitrary-precision decimals
built on the big.js `Big` type, with the operations `getComponents`,
`magnitude`, `direction`, `plus`, `minus`, `dot`, `distance`, `cross`,
`angle` and `polarCoords`.

Modelling choices, each justified by the big.js documentation and by the
JavaScript semantics the source relies on:

* A `Big` value is a signed arbitrary-precision decimal, hence a rational
  number; `Big` values are embedded as `ℚ`.
* big.js `plus`/`add`, `minus` and `times` are exact, and `pow` with a
  positive integer exponent is iterated exact multiplication; these are
  embedded as exact rational arithmetic.
* big.js `div` and `sqrt` round their mathematically exact result to
  `Big.DP = 20` decimal places (the big.js default, never changed by the
  source) with rounding mode `Big.RM = 1`, i.e. round to nearest with ties
  away from zero.  `div` throws on a zero divisor.
* Reading an out-of-range index of a JavaScript array yields `undefined`.
  Passing `undefined` as the argument of a big.js arithmetic method throws
  the big.js "Invalid number" error, and invoking a method on an
  `undefined` receiver throws a TypeError.  Methods that can throw are
  embedded in `Except JsErr`.
* `Math.acos` is native floating point, so its approximate value is not
  embeddable.  The embedding keeps the exact rational argument the source
  hands to `Math.acos` (constructor `AngleVal.acosOf`), together with the
  one exactly-specified aspect the source observes through `new Big(...)`:
  `Math.acos` returns NaN precisely when its argument lies outside
  `[-1, 1]`, and `new Big(NaN)` throws "Invalid number".  (The conversion
  of the 20-decimal-place argument to a binary double could collapse an
  argument within about `2⁻⁵³` of `±1` onto `±1`; no theorem below
  evaluates the model inside that window.)  No theorem depends on the
  approximate value of the arc cosine.
* JavaScript arrays are heap objects handled by reference.  For the one
  claim about mutation through `getComponents`, a minimal heap is modelled
  explicitly: `Heap` maps array references (natural numbers) to component
  lists, the `BigVector` constructor stores the caller's reference, and
  `getComponents` returns that stored reference, exactly as
  `return this.components;` does in the source.
-/

namespace BigVectorJs

/-- big.js rounding mode `RM = 1` (`ROUND_HALF_UP`): round to the nearest
integer, ties away from zero. -/
def roundHalfAway (x : ℚ) : ℚ :=
  if x < 0 then -(((⌊-x + 1/2⌋ : ℤ) : ℚ)) else ((⌊x + 1/2⌋ : ℤ) : ℚ)

/-- Round a rational to the big.js default of `DP = 20` decimal places,
ties away from zero. -/
def roundDp20 (x : ℚ) : ℚ := roundHalfAway (x * 10 ^ 20) / 10 ^ 20

/-- The errors the source's methods can throw: the big.js
"Invalid number" error (thrown by `new Big(undefined)` and hence by any
big.js arithmetic method applied to an out-of-range array read, and by
`new Big(NaN)`), the big.js "Division by zero" error, and the JavaScript
TypeError raised when a method is invoked on `undefined`. -/
inductive JsErr where
  | invalidNumber
  | divByZero
  | typeError

/-- big.js `div`: throws "Division by zero" on a zero divisor, otherwise
returns the exact quotient rounded to 20 decimal places. -/
def bigDiv (x y : ℚ) : Except JsErr ℚ :=
  if y = 0 then .error .divByZero else .ok (roundDp20 (x / y))

/-- big.js `sqrt` on the nonnegative arguments the source produces (sums
of squares): the real square root rounded half-up to 20 decimal places.
`⌊√(a/b)·10²⁰ + 1/2⌋ = ⌊(√(4·(a·10⁴⁰)·b) + b) / (2b)⌋` lets the rounded
root be computed by integer arithmetic; `bigSqrt_formula` below proves
this representation correct against `Real.sqrt`.  (big.js `sqrt` throws
on negative input; no call site of the source can reach that case, and
the embedding returns `0` there.) -/
def bigSqrt (x : ℚ) : ℚ :=
  if x ≤ 0 then 0
  else (((Nat.sqrt (4 * (x * 10 ^ 40).num.toNat * (x * 10 ^ 40).den)
      + (x * 10 ^ 40).den) / (2 * (x * 10 ^ 40).den) : ℕ) : ℚ) / 10 ^ 20

/-- A `BigVector` value: the ordered list of its components. -/
structure BigVector where
  components : List ℚ

/-- The accumulation `sumOfSquares = sumOfSquares.plus(c.pow(2))` running
over a component list, starting from `new Big(0)`. -/
def sumSquares (l : List ℚ) : ℚ := l.foldl (fun s c => s + c ^ 2) 0

/-- `magnitude()`: the square root of the sum of the squares of all
components. -/
def BigVector.magnitude (v : BigVector) : ℚ := bigSqrt (sumSquares v.components)

/-- The value space of `direction()`: the source returns either a new
`BigVector` or the JavaScript number `NaN` (the literal statement
`return NaN;`). -/
inductive DirResult where
  | vec (v : BigVector)
  | nan

/-- `direction()`: if the magnitude is nonzero, each component divided by
the magnitude via big.js `div` (the divisor is nonzero on this branch, so
`div` cannot throw and yields the 20-decimal-place rounded quotient);
otherwise the JavaScript number `NaN`. -/
def BigVector.direction (v : BigVector) : DirResult :=
  if v.magnitude = 0 then .nan
  else .vec ⟨v.components.map fun c => roundDp20 (c / v.magnitude)⟩

/-- The componentwise loop `for (i = 0; i < this.components.length; i++)`
shared by `plus`, `minus`, `dot` and `distance`: it is driven by the
receiver, so every receiver read is in range; when the argument list is
exhausted the JavaScript read yields `undefined` and the big.js method
applied to it throws "Invalid number". -/
def zipWithJs (f : ℚ → ℚ → ℚ) : List ℚ → List ℚ → Except JsErr (List ℚ)
  | [], _ => .ok []
  | _ :: _, [] => .error .invalidNumber
  | x :: xs, y :: ys => do
    let rest ← zipWithJs f xs ys
    .ok (f x y :: rest)

/-- `plus(vector)`: componentwise `add` over the receiver's indices. -/
def BigVector.plus (v w : BigVector) : Except JsErr BigVector :=
  (zipWithJs (· + ·) v.components w.components).map BigVector.mk

/-- `minus(vector)`: componentwise `minus` over the receiver's indices. -/
def BigVector.minus (v w : BigVector) : Except JsErr BigVector :=
  (zipWithJs (· - ·) v.components w.components).map BigVector.mk

/-- `dot(vector)`: the sum of componentwise `times` over the receiver's
indices, accumulated from `new Big(0)`. -/
def BigVector.dot (v w : BigVector) : Except JsErr ℚ :=
  (zipWithJs (· * ·) v.components w.components).map (List.foldl (· + ·) 0)

/-- `distance(vector)`: the square root of the accumulated squares of the
componentwise differences, over the receiver's indices. -/
def BigVector.distance (v w : BigVector) : Except JsErr ℚ :=
  (zipWithJs (· - ·) v.components w.components).map fun l => bigSqrt (sumSquares l)

/-- A JavaScript indexed array read: `undefined` (i.e. `none`) out of
range. -/
def listGetJs : List ℚ → ℕ → Option ℚ
  | [], _ => none
  | x :: _, 0 => some x
  | _ :: xs, n + 1 => listGetJs xs n

/-- The array read `components[i]` of a vector. -/
def arrGet (v : BigVector) (i : ℕ) : Option ℚ := listGetJs v.components i

/-- `a.times(b)` where both operands come from array reads: a TypeError
if the receiver read was `undefined`, the big.js "Invalid number" error if
the argument read was `undefined`, otherwise the exact product. -/
def timesJs : Option ℚ → Option ℚ → Except JsErr ℚ
  | none, _ => .error .typeError
  | some _, none => .error .invalidNumber
  | some a, some b => .ok (a * b)

/-- `cross(vector)`: the determinant expansion over indices 0..2 of both
operands, read unconditionally and in the source's evaluation order. -/
def BigVector.cross (v w : BigVector) : Except JsErr BigVector := do
  let x1 ← timesJs (arrGet v 1) (arrGet w 2)
  let x2 ← timesJs (arrGet v 2) (arrGet w 1)
  let y1 ← timesJs (arrGet v 2) (arrGet w 0)
  let y2 ← timesJs (arrGet v 0) (arrGet w 2)
  let z1 ← timesJs (arrGet v 0) (arrGet w 1)
  let z2 ← timesJs (arrGet v 1) (arrGet w 0)
  .ok ⟨[x1 - x2, y1 - y2, z1 - z2]⟩

/-- The `Big`-typed angle value built by `angle`/`polarCoords`:
either a `Big` constructed from an exact decimal (`new Big(0)` in
`polarCoords`), or `new Big(Math.acos(c))` for the recorded exact rational
cosine argument `c`. -/
inductive AngleVal where
  | fromDecimal (q : ℚ)
  | acosOf (c : ℚ)

/-- `angle(vector)`: the dot product divided (big.js `div`, throwing on a
zero denominator) by the exact product of the two magnitudes, then
`new Big(Math.acos(...))` — which throws "Invalid number" when the cosine
argument lies outside `[-1, 1]`, because `Math.acos` returns NaN there. -/
def BigVector.angle (v w : BigVector) : Except JsErr AngleVal := do
  let n ← v.dot w
  let c ← bigDiv n (v.magnitude * w.magnitude)
  if 1 < |c| then .error .invalidNumber else .ok (.acosOf c)

/-- `polarCoords()`: the pair of the magnitude and the angle, the angle
being `new Big(0)` when the magnitude is zero and otherwise the result of
`angle` against the vector `(1, 0)`. -/
def BigVector.polarCoords (v : BigVector) : Except JsErr (ℚ × AngleVal) :=
  if v.magnitude = 0 then .ok (v.magnitude, .fromDecimal 0)
  else (v.angle ⟨[1, 0]⟩).map fun a => (v.magnitude, a)

/-- A minimal JavaScript heap for arrays of decimals: array references are
indices into a list of component lists. -/
abbrev Heap := List (List ℚ)

/-- Dereference an array: reading a dangling reference yields the empty
array (never exercised by the theorems below). -/
def Heap.read (h : Heap) (r : ℕ) : List ℚ := (h[r]?).getD []

/-- Mutate one cell of the array behind reference `r`, in place. -/
def Heap.writeAt (h : Heap) (r i : ℕ) (x : ℚ) : Heap :=
  h.set r ((Heap.read h r).set i x)

/-- A `BigVector` object as constructed by `new BigVector(components)`:
`this.components = components` stores the caller's array reference. -/
structure BigVectorRef where
  components : ℕ

/-- `getComponents()` is `return this.components;` — it returns the stored
reference itself, not a copy. -/
def BigVectorRef.getComponents (v : BigVectorRef) : ℕ := v.components

/-- The pure component list an object currently denotes: what every
method reads through `this.components` at call time. -/
def readVec (h : Heap) (v : BigVectorRef) : BigVector :=
  ⟨Heap.read h v.components⟩

/-! ### Supporting lemmas about the numeric model -/

lemma exceptBind_ok {α β : Type} (x : α) (f : α → Except JsErr β) :
    (Except.ok x >>= f) = f x := rfl

lemma exceptBind_error {α β : Type} (e : JsErr) (f : α → Except JsErr β) :
    ((Except.error e : Except JsErr α) >>= f) = Except.error e := rfl

lemma floor_half : (⌊(1/2 : ℚ)⌋ : ℤ) = 0 := by
  rw [Int.floor_eq_iff]
  norm_num

lemma roundHalfAway_intCast (k : ℤ) : roundHalfAway (k : ℚ) = k := by
  unfold roundHalfAway
  split
  · rw [show (-(k : ℚ) + 1/2) = ((-k : ℤ) : ℚ) + 1/2 by push_cast; ring,
      Int.floor_int_add, floor_half]
    push_cast
    ring
  · rw [show ((k : ℚ) + 1/2) = ((k : ℤ) : ℚ) + 1/2 by norm_num,
      Int.floor_int_add, floor_half]
    push_cast
    ring

/-- Rounding to 20 decimal places is the identity on values that already
have at most 20 decimal places. -/
lemma roundDp20_self (x : ℚ) (k : ℤ) (h : x * 10 ^ 20 = (k : ℚ)) :
    roundDp20 x = x := by
  rw [roundDp20, h, roundHalfAway_intCast, ← h]
  field_simp

/-- The integer-arithmetic core of `bigSqrt`: the half-up rounding of the
real square root of `a / b`. -/
lemma sqrt_halfUp_int (a b : ℕ) (hb : 0 < b) :
    (Nat.sqrt (4 * a * b) + b) / (2 * b) = ⌊Real.sqrt ((a : ℝ) / (b : ℝ)) + 1/2⌋₊ := by
  have hBpos : (0 : ℝ) < (b : ℝ) := by exact_mod_cast hb
  have hbne : (b : ℝ) ≠ 0 := ne_of_gt hBpos
  have hdiv : (a : ℝ) / (b : ℝ) = ((4 * a * b : ℕ) : ℝ) / ((2 * b : ℕ) : ℝ) ^ 2 := by
    push_cast
    field_simp
    ring
  rw [hdiv, Real.sqrt_div (by positivity) _, Real.sqrt_sq (by positivity)]
  have hhalf : Real.sqrt ((4 * a * b : ℕ) : ℝ) / ((2 * b : ℕ) : ℝ) + 1/2
      = (Real.sqrt ((4 * a * b : ℕ) : ℝ) + (b : ℕ)) / ((2 * b : ℕ) : ℝ) := by
    push_cast
    field_simp
    ring
  rw [hhalf, Nat.floor_div_nat, Nat.floor_add_nat (Real.sqrt_nonneg _),
    Real.nat_floor_real_sqrt_eq_nat_sqrt]

/-- `bigSqrt` computes the half-up rounding, to 20 decimal places, of the
real square root of its (nonnegative) argument. -/
lemma bigSqrt_formula (q : ℚ) (hq : 0 ≤ q) :
    bigSqrt q = ((⌊Real.sqrt (q : ℝ) * 10 ^ 20 + 1/2⌋₊ : ℕ) : ℚ) / 10 ^ 20 := by
  rcases eq_or_lt_of_le hq with h0 | hpos
  · rw [← h0]
    simp only [bigSqrt, if_pos le_rfl]
    rw [Rat.cast_zero, Real.sqrt_zero, zero_mul, zero_add,
      show ⌊(1/2 : ℝ)⌋₊ = 0 from by rw [Nat.floor_eq_zero]; norm_num]
    norm_num
  · have hrpos : 0 < q * 10 ^ 40 := by positivity
    have hbpos : 0 < (q * 10 ^ 40).den := (q * 10 ^ 40).pos
    have hnum : (((q * 10 ^ 40).num.toNat : ℕ) : ℚ) = (((q * 10 ^ 40).num : ℤ) : ℚ) := by
      exact_mod_cast Int.toNat_of_nonneg (Rat.num_nonneg.mpr hrpos.le)
    have hfrac : (((q * 10 ^ 40).num.toNat : ℕ) : ℝ) / (((q * 10 ^ 40).den : ℕ) : ℝ)
        = (q : ℝ) * 10 ^ 40 := by
      have h1 : (((q * 10 ^ 40).num.toNat : ℕ) : ℚ) / (((q * 10 ^ 40).den : ℕ) : ℚ)
          = q * 10 ^ 40 := by
        rw [hnum, Rat.num_div_den]
      have h2 := congrArg (fun z : ℚ => (z : ℝ)) h1
      push_cast at h2
      convert h2 using 2
    have hsq : Real.sqrt ((q : ℝ)) * 10 ^ 20 = Real.sqrt ((q : ℝ) * 10 ^ 40) := by
      rw [show ((10 : ℝ) ^ 40) = ((10 : ℝ) ^ 20) ^ 2 by ring,
        Real.sqrt_mul (by exact_mod_cast hq) _, Real.sqrt_sq (by positivity)]
    unfold bigSqrt
    rw [if_neg (not_le.mpr hpos), sqrt_halfUp_int _ _ hbpos, hfrac, ← hsq]

lemma bigSqrt_zero : bigSqrt 0 = 0 := by
  simp [bigSqrt]

/-! ### Supporting lemmas about the list operations -/

lemma zipWithJs_ok (f : ℚ → ℚ → ℚ) (l₁ l₂ : List ℚ) (h : l₁.length ≤ l₂.length) :
    zipWithJs f l₁ l₂ = .ok (List.zipWith f l₁ l₂) := by
  induction l₁ generalizing l₂ with
  | nil => rfl
  | cons x xs ih =>
    cases l₂ with
    | nil => simp at h
    | cons y ys =>
      have hxy := ih ys (by simpa using h)
      simp [zipWithJs, hxy, exceptBind_ok, exceptBind_error]

lemma zipWithJs_err (f : ℚ → ℚ → ℚ) (l₁ l₂ : List ℚ) (h : l₂.length < l₁.length) :
    zipWithJs f l₁ l₂ = .error .invalidNumber := by
  induction l₁ generalizing l₂ with
  | nil => simp at h
  | cons x xs ih =>
    cases l₂ with
    | nil => rfl
    | cons y ys =>
      have hxy := ih ys (by simpa using h)
      simp [zipWithJs, hxy, exceptBind_ok, exceptBind_error]

lemma foldl_sumSquares (l : List ℚ) (s : ℚ) :
    List.foldl (fun s c => s + c ^ 2) s l = s + sumSquares l := by
  induction l generalizing s with
  | nil => simp [sumSquares]
  | cons x xs ih =>
    simp only [sumSquares, List.foldl_cons] at *
    rw [ih (s + x ^ 2), ih (0 + x ^ 2)]
    ring

lemma sumSquares_cons (x : ℚ) (xs : List ℚ) :
    sumSquares (x :: xs) = x ^ 2 + sumSquares xs := by
  rw [sumSquares, List.foldl_cons, foldl_sumSquares]
  ring

lemma sumSquares_nonneg (l : List ℚ) : 0 ≤ sumSquares l := by
  induction l with
  | nil => simp [sumSquares]
  | cons x xs ih =>
    rw [sumSquares_cons]
    have := sq_nonneg x
    linarith

lemma sumSquares_of_all_zero (l : List ℚ) (h : ∀ c ∈ l, c = 0) : sumSquares l = 0 := by
  induction l with
  | nil => simp [sumSquares]
  | cons x xs ih =>
    rw [sumSquares_cons, h x (by simp), ih fun c hc => h c (by simp [hc])]
    norm_num

/-! ### Evaluation helpers for concrete inputs -/

/-- Evaluate `bigSqrt q` when the real root of `q` is the rational `s` and
the half-up rounding of `s·10²⁰` is `n`. -/
lemma bigSqrt_eval (q s : ℚ) (n : ℕ) (hs : 0 ≤ s) (hq : s ^ 2 = q)
    (h1 : (n : ℝ) ≤ (s : ℝ) * 10 ^ 20 + 1/2) (h2 : (s : ℝ) * 10 ^ 20 + 1/2 < n + 1) :
    bigSqrt q = (n : ℚ) / 10 ^ 20 := by
  have hq0 : 0 ≤ q := hq ▸ sq_nonneg s
  have hsR : (0 : ℝ) ≤ (s : ℝ) := by exact_mod_cast hs
  have hsr : Real.sqrt ((q : ℝ)) = (s : ℝ) := by
    rw [show ((q : ℝ)) = ((s : ℝ)) ^ 2 from by rw [← hq]; push_cast; ring]
    exact Real.sqrt_sq hsR
  rw [bigSqrt_formula q hq0, hsr]
  have hnn : (0 : ℝ) ≤ (s : ℝ) * 10 ^ 20 + 1/2 := by
    have := mul_nonneg hsR (by norm_num : (0 : ℝ) ≤ 10 ^ 20)
    linarith
  have hfl : ⌊(s : ℝ) * 10 ^ 20 + 1/2⌋₊ = n := by
    rw [Nat.floor_eq_iff hnn]
    exact ⟨h1, by exact_mod_cast h2⟩
  rw [hfl]

lemma sumSquares_pair (x y : ℚ) : sumSquares [x, y] = x ^ 2 + y ^ 2 := by
  rw [sumSquares_cons, sumSquares_cons]
  norm_num [sumSquares]

lemma magnitude_pair_eq (x y s : ℚ) (n : ℕ) (hs : 0 ≤ s) (hq : s ^ 2 = x ^ 2 + y ^ 2)
    (h1 : (n : ℝ) ≤ (s : ℝ) * 10 ^ 20 + 1/2) (h2 : (s : ℝ) * 10 ^ 20 + 1/2 < n + 1) :
    BigVector.magnitude ⟨[x, y]⟩ = (n : ℚ) / 10 ^ 20 := by
  unfold BigVector.magnitude
  show bigSqrt (sumSquares [x, y]) = (n : ℚ) / 10 ^ 20
  rw [sumSquares_pair, ← hq]
  exact bigSqrt_eval _ s n hs rfl h1 h2

lemma magnitude_all_zero (l : List ℚ) (h : ∀ c ∈ l, c = 0) :
    BigVector.magnitude ⟨l⟩ = 0 := by
  unfold BigVector.magnitude
  show bigSqrt (sumSquares l) = 0
  rw [sumSquares_of_all_zero l h, bigSqrt_zero]

lemma mag_34 : BigVector.magnitude ⟨[3, 4]⟩ = 5 := by
  rw [magnitude_pair_eq 3 4 5 (5 * 10 ^ 20) (by norm_num) (by norm_num)
    (by push_cast; norm_num) (by push_cast; norm_num)]
  norm_num

lemma mag_04 : BigVector.magnitude ⟨[0, 4]⟩ = 4 := by
  rw [magnitude_pair_eq 0 4 4 (4 * 10 ^ 20) (by norm_num) (by norm_num)
    (by push_cast; norm_num) (by push_cast; norm_num)]
  norm_num

lemma mag_10 : BigVector.magnitude ⟨[1, 0]⟩ = 1 := by
  rw [magnitude_pair_eq 1 0 1 (10 ^ 20) (by norm_num) (by norm_num)
    (by push_cast; norm_num) (by push_cast; norm_num)]
  norm_num

lemma mag_01 : BigVector.magnitude ⟨[0, 1]⟩ = 1 := by
  rw [magnitude_pair_eq 0 1 1 (10 ^ 20) (by norm_num) (by norm_num)
    (by push_cast; norm_num) (by push_cast; norm_num)]
  norm_num

/-- The magnitude of `(2.4·10⁻²⁰, 0)`: the exact root `2.4·10⁻²⁰` is
rounded half-up at the 20th decimal place to `2·10⁻²⁰`. -/
lemma mag_tiny : BigVector.magnitude ⟨[24 / 10 ^ 21, 0]⟩ = 2 / 10 ^ 20 := by
  rw [magnitude_pair_eq (24 / 10 ^ 21) 0 (24 / 10 ^ 21) 2 (by norm_num) (by norm_num)
    (by push_cast; norm_num) (by push_cast; norm_num)]
  norm_num

lemma exists_three_head (l : List ℚ) (h : 3 ≤ l.length) :
    ∃ a b c t, l = a :: b :: c :: t := by
  match l, h with
  | [], h => simp at h
  | [a], h => simp at h
  | [a, b], h => simp at h
  | a :: b :: c :: t, _ => exact ⟨a, b, c, t, rfl⟩

/-! ### Claim theorems -/

/-- Claim C4: for every pair of vectors of equal dimension, `distance`
returns exactly the same decimal as `minus` followed by `magnitude` — the
inlined sum of squared differences followed by `sqrt` coincides with
composing the two operations. -/
theorem distance_eq_minus_magnitude (v w : BigVector)
    (h : v.components.length = w.components.length) :
    ∃ u, v.minus w = .ok u ∧ v.distance w = .ok u.magnitude := by
  have hz := zipWithJs_ok (· - ·) v.components w.components (le_of_eq h)
  exact ⟨⟨List.zipWith (· - ·) v.components w.components⟩,
    by simp [BigVector.minus, hz, Except.map],
    by simp [BigVector.distance, hz, Except.map, BigVector.magnitude]⟩

/-- Witness for C4, at the spec's concrete scenario `v = (3,4)`, `w = (0,0)`. -/
theorem distance_eq_minus_magnitude_witness :
    (⟨[3, 4]⟩ : BigVector).components.length = (⟨[0, 0]⟩ : BigVector).components.length
    ∧ ∃ u, BigVector.minus ⟨[3, 4]⟩ ⟨[0, 0]⟩ = .ok u
        ∧ BigVector.distance ⟨[3, 4]⟩ ⟨[0, 0]⟩ = .ok u.magnitude :=
  ⟨rfl, distance_eq_minus_magnitude ⟨[3, 4]⟩ ⟨[0, 0]⟩ rfl⟩

/-- Claim C5: for every vector of dimension at least 1, `magnitude` is the
square root of the sum of the squares of all components (as computed by the
decimal capability: the real root rounded half-up to 20 decimal places);
it is the exact zero decimal when all components are zero; and `(3, 4)`
has magnitude exactly `5`. -/
theorem magnitude_sqrt_sum_squares (v : BigVector) (h : 1 ≤ v.components.length) :
    v.magnitude
      = ((⌊Real.sqrt ((sumSquares v.components : ℚ) : ℝ) * 10 ^ 20 + 1/2⌋₊ : ℕ) : ℚ) / 10 ^ 20
    ∧ ((∀ c ∈ v.components, c = 0) → v.magnitude = 0)
    ∧ BigVector.magnitude ⟨[3, 4]⟩ = 5 :=
  ⟨bigSqrt_formula _ (sumSquares_nonneg _),
    fun hz => magnitude_all_zero v.components hz,
    mag_34⟩

/-- Witness for C5, at the vector `(3, 4)` (dimension `2 ≥ 1`), also
instantiating the all-zero case at `(0, 0)`. -/
theorem magnitude_sqrt_sum_squares_witness :
    (1 ≤ (⟨[3, 4]⟩ : BigVector).components.length
      ∧ BigVector.magnitude ⟨[3, 4]⟩ = 5)
    ∧ (1 ≤ (⟨[0, 0]⟩ : BigVector).components.length
      ∧ BigVector.magnitude ⟨[0, 0]⟩ = 0) :=
  ⟨⟨by norm_num, (magnitude_sqrt_sum_squares ⟨[3, 4]⟩ (by norm_num)).2.2⟩,
    ⟨by norm_num, (magnitude_sqrt_sum_squares ⟨[0, 0]⟩ (by norm_num)).2.1 (by simp)⟩⟩

/-- Claim C6: `cross` on two 3-dimensional vectors is the standard
determinant expansion, and on the spec's concrete scenario
`(1,2,3) × (4,5,6) = (-3,6,-3)` and `(1,2,3) · (4,5,6) = 32`. -/
theorem cross_determinant_formula (a b c d e f : ℚ) :
    BigVector.cross ⟨[a, b, c]⟩ ⟨[d, e, f]⟩
      = .ok ⟨[b * f - c * e, c * d - a * f, a * e - b * d]⟩
    ∧ BigVector.cross ⟨[1, 2, 3]⟩ ⟨[4, 5, 6]⟩ = .ok ⟨[-3, 6, -3]⟩
    ∧ BigVector.dot ⟨[1, 2, 3]⟩ ⟨[4, 5, 6]⟩ = .ok 32 := by
  refine ⟨rfl, ?_, ?_⟩
  · rw [show BigVector.cross ⟨[1, 2, 3]⟩ ⟨[4, 5, 6]⟩
        = .ok ⟨[2 * 6 - 3 * 5, 3 * 4 - 1 * 6, 1 * 5 - 2 * 4]⟩ from rfl]
    norm_num
  · rw [show BigVector.dot ⟨[1, 2, 3]⟩ ⟨[4, 5, 6]⟩
        = .ok ((0 + 1 * 4 + 2 * 5) + 3 * 6) from rfl]
    norm_num

/-- Claim C8: the dot product is commutative for vectors of equal
dimension. -/
theorem dot_comm (v w : BigVector) (h : v.components.length = w.components.length) :
    v.dot w = w.dot v := by
  rw [BigVector.dot, BigVector.dot, zipWithJs_ok _ _ _ (le_of_eq h),
    zipWithJs_ok _ _ _ (le_of_eq h.symm),
    List.zipWith_comm_of_comm _ mul_comm]

/-- Witness for C8 at `(1,2) · (3,4)`. -/
theorem dot_comm_witness :
    BigVector.dot ⟨[1, 2]⟩ ⟨[3, 4]⟩ = BigVector.dot ⟨[3, 4]⟩ ⟨[1, 2]⟩ :=
  dot_comm ⟨[1, 2]⟩ ⟨[3, 4]⟩ rfl

/-- Claim C10: when the receiver's dimension does not exceed the
argument's, `plus`, `minus` and `dot` complete without any error, the
iteration being driven solely by the receiver's length: `plus`/`minus`
produce the componentwise results over the first `dim v` components of
`w` (a vector of dimension `dim v`), and `dot` sums the first `dim v`
componentwise products. -/
theorem receiver_driven_ops (v w : BigVector)
    (h : v.components.length ≤ w.components.length) :
    v.plus w = .ok ⟨List.zipWith (· + ·) v.components w.components⟩
    ∧ v.minus w = .ok ⟨List.zipWith (· - ·) v.components w.components⟩
    ∧ v.dot w = .ok ((List.zipWith (· * ·) v.components w.components).foldl (· + ·) 0)
    ∧ (List.zipWith (· + ·) v.components w.components).length = v.components.length := by
  refine ⟨?_, ?_, ?_, ?_⟩
  · simp [BigVector.plus, zipWithJs_ok _ _ _ h, Except.map]
  · simp [BigVector.minus, zipWithJs_ok _ _ _ h, Except.map]
  · simp [BigVector.dot, zipWithJs_ok _ _ _ h, Except.map]
  · rw [List.length_zipWith]
    exact Nat.min_eq_left h

/-- Witness for C10 at `v = (1)` (dimension 1), `w = (2, 3)` (dimension 2). -/
theorem receiver_driven_ops_witness :
    BigVector.plus ⟨[1]⟩ ⟨[2, 3]⟩ = .ok ⟨List.zipWith (· + ·) [1] [2, 3]⟩
    ∧ BigVector.minus ⟨[1]⟩ ⟨[2, 3]⟩ = .ok ⟨List.zipWith (· - ·) [1] [2, 3]⟩
    ∧ BigVector.dot ⟨[1]⟩ ⟨[2, 3]⟩
        = .ok ((List.zipWith (· * ·) [1] [2, 3]).foldl (· + ·) 0)
    ∧ (List.zipWith (· + ·) ([1] : List ℚ) [2, 3]).length = ([1] : List ℚ).length :=
  receiver_driven_ops ⟨[1]⟩ ⟨[2, 3]⟩ (by norm_num)

/-- Claim C7: whenever at least one operand has exactly-zero magnitude,
`angle` raises an error synchronously (the big.js "Division by zero"
error from `div`, or — when the receiver is longer than the argument —
the "Invalid number" error already raised inside `dot`) instead of
returning a NaN-carrying value. -/
theorem angle_zero_magnitude_error (v w : BigVector)
    (h : v.magnitude = 0 ∨ w.magnitude = 0) :
    ∃ e, v.angle w = .error e := by
  cases hd : v.dot w with
  | error e =>
    refine ⟨e, ?_⟩
    unfold BigVector.angle
    rw [hd, exceptBind_error]
  | ok n =>
    refine ⟨.divByZero, ?_⟩
    unfold BigVector.angle
    rw [hd, exceptBind_ok]
    have hden : v.magnitude * w.magnitude = 0 := by
      rcases h with h | h
      · rw [h, zero_mul]
      · rw [h, mul_zero]
    rw [show bigDiv n (v.magnitude * w.magnitude) = .error .divByZero from by
        unfold bigDiv; rw [if_pos hden], exceptBind_error]

/-- Witness for C7 at `v = (0)` (zero magnitude), `w = (1)`. -/
theorem angle_zero_magnitude_error_witness :
    (BigVector.magnitude ⟨[0]⟩ = 0 ∨ BigVector.magnitude ⟨[(1 : ℚ)]⟩ = 0)
    ∧ ∃ e, BigVector.angle ⟨[0]⟩ ⟨[(1 : ℚ)]⟩ = .error e :=
  ⟨Or.inl (magnitude_all_zero [0] (by simp)),
    angle_zero_magnitude_error ⟨[0]⟩ ⟨[(1 : ℚ)]⟩
      (Or.inl (magnitude_all_zero [0] (by simp)))⟩

/-- Claim C1 counterexample: no binary operation validates dimensions.
`(1,2).plus((3,4,5))` completes without raising any error — it silently
truncates the longer argument — and `cross` on two 4-dimensional vectors
also completes without any error; neither raises the DimensionMismatch
(or DimensionUnsupported) error the claim requires. -/
theorem binary_ops_dimension_check_counterexample :
    BigVector.plus ⟨[1, 2]⟩ ⟨[3, 4, 5]⟩ = .ok ⟨[4, 6]⟩
    ∧ BigVector.cross ⟨[1, 0, 0, 2]⟩ ⟨[0, 1, 0, 2]⟩ = .ok ⟨[0, 0, 1]⟩ := by
  constructor
  · rw [show BigVector.plus ⟨[1, 2]⟩ ⟨[3, 4, 5]⟩ = .ok ⟨[1 + 3, 2 + 4]⟩ from rfl]
    norm_num
  · rw [show BigVector.cross ⟨[1, 0, 0, 2]⟩ ⟨[0, 1, 0, 2]⟩
        = .ok ⟨[0 * 0 - 0 * 1, 0 * 0 - 1 * 0, 1 * 1 - 0 * 0]⟩ from rfl]
    norm_num

/-- Claim C1 amended: the source performs no dimension validation and
declares no DimensionMismatch error.  `plus`, `minus`, `dot` and
`distance` iterate over the receiver's dimension: when the argument is
strictly shorter they fail with the decimal library's "Invalid number"
error (from the out-of-range read), and when it is longer they silently
truncate (claim C10's theorem).  `cross` reads indices 0..2 of both
operands unconditionally and succeeds without any error whenever both
dimensions are at least 3 — even when they are not exactly 3. -/
theorem binary_ops_dimension_behavior (v w : BigVector) :
    (w.components.length < v.components.length →
      v.plus w = .error .invalidNumber
      ∧ v.minus w = .error .invalidNumber
      ∧ v.dot w = .error .invalidNumber
      ∧ v.distance w = .error .invalidNumber)
    ∧ (3 ≤ v.components.length → 3 ≤ w.components.length →
      ∃ u, v.cross w = .ok u) := by
  constructor
  · intro h
    refine ⟨?_, ?_, ?_, ?_⟩
    · simp [BigVector.plus, zipWithJs_err _ _ _ h, Except.map]
    · simp [BigVector.minus, zipWithJs_err _ _ _ h, Except.map]
    · simp [BigVector.dot, zipWithJs_err _ _ _ h, Except.map]
    · simp [BigVector.distance, zipWithJs_err _ _ _ h, Except.map]
  · intro hv hw
    obtain ⟨lv⟩ := v
    obtain ⟨lw⟩ := w
    obtain ⟨a, b, c, t, rfl⟩ := exists_three_head lv hv
    obtain ⟨d, e, f, s, rfl⟩ := exists_three_head lw hw
    exact ⟨⟨[b * f - c * e, c * d - a * f, a * e - b * d]⟩, rfl⟩

/-- Witness for the amended C1 at `v = (1,2,3,4)`, `w = (9,8,7)`. -/
theorem binary_ops_dimension_behavior_witness :
    (BigVector.plus ⟨[1, 2, 3, 4]⟩ ⟨[9, 8, 7]⟩ = .error .invalidNumber
      ∧ BigVector.minus ⟨[1, 2, 3, 4]⟩ ⟨[9, 8, 7]⟩ = .error .invalidNumber
      ∧ BigVector.dot ⟨[1, 2, 3, 4]⟩ ⟨[9, 8, 7]⟩ = .error .invalidNumber
      ∧ BigVector.distance ⟨[1, 2, 3, 4]⟩ ⟨[9, 8, 7]⟩ = .error .invalidNumber)
    ∧ ∃ u, BigVector.cross ⟨[1, 2, 3, 4]⟩ ⟨[9, 8, 7]⟩ = .ok u :=
  ⟨(binary_ops_dimension_behavior ⟨[1, 2, 3, 4]⟩ ⟨[9, 8, 7]⟩).1 (by norm_num),
    (binary_ops_dimension_behavior ⟨[1, 2, 3, 4]⟩ ⟨[9, 8, 7]⟩).2
      (by norm_num) (by norm_num)⟩

/-- Claim C2 counterexample: on the zero vector `(0, 0)` the source's
`direction` returns the JavaScript number `NaN` — exactly the non-vector
numeric sentinel the claim says is not returned — rather than any
explicit absent-result value. -/
theorem direction_zero_counterexample :
    BigVector.direction ⟨[0, 0]⟩ = .nan := by
  unfold BigVector.direction
  rw [if_pos (magnitude_all_zero [0, 0] (by simp))]

/-- Claim C2 amended: when the magnitude is nonzero, `direction` returns a
new vector of the same dimension whose i-th component is the i-th
component divided by the magnitude (big.js division, rounded to 20
decimal places); when the magnitude is exactly zero it returns the
JavaScript numeric sentinel `NaN`, not an absent-result value. -/
theorem direction_behavior (v : BigVector) :
    (v.magnitude = 0 → v.direction = .nan)
    ∧ (v.magnitude ≠ 0 → ∃ u, v.direction = .vec u
        ∧ u.components.length = v.components.length
        ∧ ∀ i : ℕ, u.components[i]?
            = (v.components[i]?).map fun c => roundDp20 (c / v.magnitude)) := by
  constructor
  · intro h
    unfold BigVector.direction
    rw [if_pos h]
  · intro h
    refine ⟨⟨v.components.map fun c => roundDp20 (c / v.magnitude)⟩, ?_, by simp,
      fun i => by simp⟩
    unfold BigVector.direction
    rw [if_neg h]

/-- Witness for the amended C2 at `v = (3, 4)`, whose magnitude `5` is
nonzero. -/
theorem direction_behavior_witness :
    BigVector.magnitude ⟨[3, 4]⟩ ≠ 0
    ∧ ∃ u, BigVector.direction ⟨[3, 4]⟩ = .vec u
        ∧ u.components.length = (⟨[3, 4]⟩ : BigVector).components.length
        ∧ ∀ i : ℕ, u.components[i]?
            = ((⟨[3, 4]⟩ : BigVector).components[i]?).map
                fun c => roundDp20 (c / BigVector.magnitude ⟨[3, 4]⟩) :=
  have hne : BigVector.magnitude ⟨[3, 4]⟩ ≠ 0 := by rw [mag_34]; norm_num
  ⟨hne, (direction_behavior ⟨[3, 4]⟩).2 hne⟩

/-- Claim C3 counterexample: on the 2-dimensional vector
`(2.4·10⁻²⁰, 0)` with nonzero magnitude, `polarCoords` does not return a
pair `(magnitude, angle)` at all — it throws the big.js "Invalid number"
error.  The magnitude rounds (half-up at 20 decimal places) to `2·10⁻²⁰`,
so the cosine argument `2.4·10⁻²⁰ / (2·10⁻²⁰ · 1)` evaluates to `1.2`,
and `Math.acos(1.2)` is NaN, so `new Big(Math.acos(...))` throws. -/
theorem polarCoords_throws_counterexample :
    BigVector.polarCoords ⟨[24 / 10 ^ 21, 0]⟩ = .error .invalidNumber := by
  have hang : BigVector.angle ⟨[24 / 10 ^ 21, 0]⟩ ⟨[1, 0]⟩ = .error .invalidNumber := by
    unfold BigVector.angle
    rw [show BigVector.dot ⟨[24 / 10 ^ 21, 0]⟩ ⟨[1, 0]⟩
        = .ok ((0 + 24 / 10 ^ 21 * 1) + 0 * 0) from rfl, exceptBind_ok,
      show ((0 + 24 / 10 ^ 21 * 1) + 0 * 0 : ℚ) = 24 / 10 ^ 21 from by ring,
      mag_tiny, mag_10]
    have hdiv : bigDiv (24 / 10 ^ 21) ((2 / 10 ^ 20 : ℚ) * 1) = .ok (6 / 5) := by
      unfold bigDiv
      rw [if_neg (by norm_num)]
      rw [show (24 / 10 ^ 21 : ℚ) / ((2 / 10 ^ 20) * 1) = 6 / 5 from by norm_num,
        roundDp20_self (6 / 5) (12 * 10 ^ 19) (by norm_num)]
    rw [hdiv, exceptBind_ok,
      if_pos (by rw [show |(6 / 5 : ℚ)| = 6 / 5 from abs_of_pos (by norm_num)]; norm_num)]
  unfold BigVector.polarCoords
  rw [if_neg (by rw [mag_tiny]; norm_num), hang]
  rfl

/-- Claim C3 amended: for a 2-dimensional vector, `polarCoords` returns
the pair of the magnitude and an angle value; the angle is the exact zero
decimal when the magnitude is exactly zero, and otherwise is
`Math.acos` applied to the cosine computed via `angle()` against `(1,0)`
— the dot product `x·1 + y·0 = x` divided (rounded big.js division) by
the product of the magnitudes — provided that cosine lies in `[-1, 1]`
(otherwise the call throws, per the counterexample).  `Math.acos` ranges
over `[0, π] ⊆ [0, 2π]`, and no quadrant correction is applied, so for
vectors with negative second component the result is not the angle
measured from the positive x-axis over the full `[0, 2π]` range. -/
theorem polarCoords_behavior (x y : ℚ) :
    (BigVector.magnitude ⟨[x, y]⟩ = 0 →
      BigVector.polarCoords ⟨[x, y]⟩
        = .ok (BigVector.magnitude ⟨[x, y]⟩, .fromDecimal 0))
    ∧ (∀ c : ℚ, BigVector.magnitude ⟨[x, y]⟩ ≠ 0 →
        bigDiv x (BigVector.magnitude ⟨[x, y]⟩ * BigVector.magnitude ⟨[1, 0]⟩) = .ok c →
        |c| ≤ 1 →
        BigVector.polarCoords ⟨[x, y]⟩
          = .ok (BigVector.magnitude ⟨[x, y]⟩, .acosOf c)) := by
  constructor
  · intro h
    unfold BigVector.polarCoords
    rw [if_pos h]
  · intro c hne hdiv hc
    have hang : BigVector.angle ⟨[x, y]⟩ ⟨[1, 0]⟩ = .ok (.acosOf c) := by
      unfold BigVector.angle
      rw [show BigVector.dot ⟨[x, y]⟩ ⟨[1, 0]⟩ = .ok ((0 + x * 1) + y * 0) from rfl,
        exceptBind_ok, show ((0 + x * 1) + y * 0 : ℚ) = x from by ring,
        hdiv, exceptBind_ok, if_neg (not_lt.mpr hc)]
    unfold BigVector.polarCoords
    rw [if_neg hne, hang]
    rfl

/-- Witness for the amended C3 at `v = (0, 1)`: magnitude `1`, cosine
`0 / (1·1) = 0`. -/
theorem polarCoords_behavior_witness :
    BigVector.magnitude ⟨[0, 1]⟩ ≠ 0
    ∧ bigDiv 0 (BigVector.magnitude ⟨[0, 1]⟩ * BigVector.magnitude ⟨[1, 0]⟩) = .ok 0
    ∧ |(0 : ℚ)| ≤ 1
    ∧ BigVector.polarCoords ⟨[0, 1]⟩
        = .ok (BigVector.magnitude ⟨[0, 1]⟩, .acosOf 0) := by
  have hne : BigVector.magnitude ⟨[0, 1]⟩ ≠ 0 := by rw [mag_01]; norm_num
  have hdiv : bigDiv 0 (BigVector.magnitude ⟨[0, 1]⟩ * BigVector.magnitude ⟨[1, 0]⟩)
      = .ok 0 := by
    rw [mag_01, mag_10]
    unfold bigDiv
    rw [if_neg (by norm_num), show (0 : ℚ) / (1 * 1) = 0 from by norm_num,
      roundDp20_self 0 0 (by norm_num)]
  exact ⟨hne, hdiv, by norm_num,
    (polarCoords_behavior 0 1).2 0 hne hdiv (by norm_num)⟩

/-- Claim C9 counterexample: `getComponents` returns the internal array
itself, so a caller CAN mutate the vector through it.  With the heap
holding the single array `[3, 4]` referenced by the vector, the magnitude
is `5`; after writing `0` into index 0 of the array obtained from
`getComponents`, the same vector's magnitude becomes `4 ≠ 5` — a
subsequent operation's result changed. -/
theorem getComponents_mutation_counterexample :
    (readVec [[3, 4]] ⟨0⟩).magnitude = 5
    ∧ (readVec (Heap.writeAt [[3, 4]] (BigVectorRef.getComponents ⟨0⟩) 0 0) ⟨0⟩).magnitude
        ≠ 5 := by
  constructor
  · rw [show readVec [[3, 4]] ⟨0⟩ = ⟨[3, 4]⟩ from rfl]
    exact mag_34
  · rw [show readVec (Heap.writeAt [[3, 4]] (BigVectorRef.getComponents ⟨0⟩) 0 0) ⟨0⟩
        = ⟨[0, 4]⟩ from rfl, mag_04]
    norm_num

/-- Claim C9 amended: `getComponents` returns the stored array reference
itself (no copy), and a write through that returned reference is visible
to every subsequent operation of the vector: the vector then denotes the
mutated component list. -/
theorem getComponents_alias_behavior (h : Heap) (r i : ℕ) (x : ℚ) :
    BigVectorRef.getComponents ⟨r⟩ = r
    ∧ readVec (Heap.writeAt h (BigVectorRef.getComponents ⟨r⟩) i x) ⟨r⟩
        = ⟨(Heap.read h r).set i x⟩ := by
  refine ⟨rfl, ?_⟩
  unfold readVec Heap.writeAt BigVectorRef.getComponents Heap.read
  congr 1
  rw [List.getElem?_set_self']
  cases hx : h[r]? with
  | none => simp
  | some l => simp

end BigVectorJs
